import Mathlib

/-!
Shallow embedding of the Human-In-the-Loop MCP server repository: the
response-validation utility (spec section 4.1), the tkinter input-dialog
result logic, and the v4.1 server tools, together with theorems settling
the specification claims about them.

The validator `validate_prompt_response` lives in
`human_in_the_loop/utils/helpers.py`, a module absent from the sources
(only its tests in `tests/integration/test_integration.py` and callers
remain); it is therefore modelled from the spec, as marked on each
definition.  The dialog and server definitions are translated from the
Python sources in `src/`.
-/

/-- Numeric value of a list of decimal digit characters, most significant
first. -/
def decValue (cs : List Char) : Nat :=
  cs.foldl (fun a c => 10 * a + (c.toNat - 48)) 0

/-- A nonempty run of decimal digits. -/
def isDigitRun (cs : List Char) : Bool :=
  !cs.isEmpty && cs.all Char.isDigit

/-- Strip one optional leading sign, returning the sign as `1` or `-1`
together with the remainder. -/
def parseSign (cs : List Char) : Int × List Char :=
  match cs with
  | [] => (1, [])
  | c :: rest =>
    if c = '+' then (1, rest)
    else if c = '-' then (-1, rest)
    else (1, cs)

/-- Split a character list at the first character satisfying `p`: the part
before it, and (when found) the part after it, the matching character
dropped. -/
def splitFirst (p : Char → Bool) : List Char → List Char × Option (List Char)
  | [] => ([], none)
  | c :: cs =>
    if p c then ([], some cs)
    else
      let r := splitFirst p cs
      (c :: r.1, r.2)

/-- ASCII whitespace, the characters trimmed around tokens. -/
def isSpaceChar (c : Char) : Bool :=
  c == ' ' || c == '\t' || c == '\n' || c == '\r' || c == Char.ofNat 11 || c == Char.ofNat 12

/-- Remove leading and trailing whitespace from a character list. -/
def stripChars (cs : List Char) : List Char :=
  ((cs.dropWhile isSpaceChar).reverse.dropWhile isSpaceChar).reverse

/-- Remove leading and trailing whitespace from a string. -/
def trimString (s : String) : String :=
  String.mk (stripChars s.data)

/-- Split a string on commas; always returns at least one (possibly empty)
token. -/
def splitCommaChars : List Char → List (List Char)
  | [] => [[]]
  | c :: cs =>
    if c = ',' then [] :: splitCommaChars cs
    else
      match splitCommaChars cs with
      | [] => [[c]]
      | t :: ts => (c :: t) :: ts

/-- Split a string on commas. -/
def splitComma (s : String) : List String :=
  (splitCommaChars s.data).map String.mk

/-- Lower-case every character of a string. -/
def lowerString (s : String) : String :=
  String.mk (s.data.map Char.toLower)

/-- The declared kind of an expected prompt response. -/
inductive ResponseKind where
  | text
  | integer
  | float
  | choice
  | confirmation
deriving DecidableEq, Repr

/-- A typed value produced by validation.  Float values are modelled as the
exact rationals denoted by their decimal literals. -/
inductive Value where
  | str (s : String)
  | int (n : Int)
  | float (q : Rat)
  | bool (b : Bool)
  | list (vs : List Value)

/-- The (isValid, value, errorMessage) triple returned by the validator. -/
structure ValidationResult where
  isValid : Bool
  value : Option Value
  error : String

/-- Modelled from the spec: the integer rule of `validate_prompt_response`
(absent `human_in_the_loop/utils/helpers.py`): the entire string must be a
base-10 integer with an optional leading sign and no decimal point. -/
def specParseInt (s : String) : Option Int :=
  let sp := parseSign s.data
  if isDigitRun sp.2 then some (sp.1 * decValue sp.2) else none

/-- Exact rational value of a decimal mantissa already split at the decimal
point. -/
def mantissaVal (ip fp : List Char) : Rat :=
  (decValue ip : Rat) + (decValue fp : Rat) / (10 : Rat) ^ fp.length

/-- Modelled from the spec: the mantissa of a floating-point literal,
`D+`, `D+.D*` or `.D+`. -/
def parseMantissa (cs : List Char) : Option Rat :=
  match splitFirst (fun c => c == '.') cs with
  | (ip, none) => if isDigitRun ip then some ((decValue ip : Rat)) else none
  | (ip, some fp) =>
    if (ip ++ fp).all Char.isDigit && !(ip.isEmpty && fp.isEmpty) then
      some (mantissaVal ip fp)
    else none

/-- Modelled from the spec: an unsigned floating-point literal body, a
mantissa with an optional exponent `(e|E) sign? D+`. -/
def parseFloatBody (cs : List Char) : Option Rat :=
  let me := splitFirst (fun c => c == 'e' || c == 'E') cs
  match parseMantissa me.1, me.2 with
  | some m, none => some m
  | some m, some ec =>
    let es := parseSign ec
    if isDigitRun es.2 then some (m * (10 : Rat) ^ (es.1 * (decValue es.2 : Int)))
    else none
  | none, _ => none

/-- Modelled from the spec: the float rule of `validate_prompt_response`
(absent `human_in_the_loop/utils/helpers.py`): the string must parse as a
floating-point literal `sign? (D+ | D+.D* | .D+) ((e|E) sign? D+)?`, valued
as an exact rational. -/
def specParseFloat (s : String) : Option Rat :=
  let sp := parseSign s.data
  (parseFloatBody sp.2).map (fun m => sp.1 * m)

/-- Modelled from the spec: the fixed affirmative confirmation answers. -/
def affirmativeSet : List String := ["yes", "y", "true", "confirm", "ok", "1"]

/-- Modelled from the spec: the fixed negative confirmation answers. -/
def negativeSet : List String := ["no", "n", "false", "cancel", "deny", "0"]

/-- Modelled from the spec: a choice token becomes an integer when it parses
as one, otherwise stays the (already trimmed) string. -/
def convertChoiceToken (t : String) : Value :=
  match specParseInt t with
  | some n => .int n
  | none => .str t

/-- Modelled from the spec: `validate_prompt_response` from the absent
`human_in_the_loop/utils/helpers.py`, mapping raw text and a declared kind
to the (isValid, value, errorMessage) triple of spec section 4.1. -/
def validate_prompt_response (rawText : String) (kind : ResponseKind) : ValidationResult :=
  if rawText = "" then ⟨false, none, "Empty response provided"⟩
  else
    match kind with
    | .text => ⟨true, some (.str rawText), ""⟩
    | .integer =>
      match specParseInt rawText with
      | some n => ⟨true, some (.int n), ""⟩
      | none => ⟨false, none, "Invalid integer format"⟩
    | .float =>
      match specParseFloat rawText with
      | some q => ⟨true, some (.float q), ""⟩
      | none => ⟨false, none, "Invalid float format"⟩
    | .choice =>
      let toks := (splitComma rawText).map trimString
      match toks with
      | [t] => ⟨true, some (convertChoiceToken t), ""⟩
      | _ => ⟨true, some (.list (toks.map convertChoiceToken)), ""⟩
    | .confirmation =>
      if affirmativeSet.contains (lowerString rawText) then ⟨true, some (.bool true), ""⟩
      else if negativeSet.contains (lowerString rawText) then ⟨true, some (.bool false), ""⟩
      else ⟨false, none, "Invalid confirmation response"⟩

/-- Replaying a sequence of validation calls; the validator threads no state,
so a call sequence is a plain map. -/
def runValidationCalls (calls : List (String × ResponseKind)) : List ValidationResult :=
  calls.map fun c => validate_prompt_response c.1 c.2

/-!
Python numeric conversions, as used by the tkinter dialog layer
(`src/human_in_the_loop/dialogs/input.py`) and the v4.1 server
(`src/human_in_the_loop_mcp/server.py`): `int(s)` and `float(s)` strip
surrounding whitespace, accept one optional sign, and allow single
underscores between digits; `float` additionally accepts a decimal point,
an exponent, and the special words inf / infinity / nan.
-/

/-- Continuation of a digit run in Python numeric syntax: digits with single
underscores allowed between digits. -/
def pyDigitsRest : List Char → Bool
  | [] => true
  | '_' :: c :: cs => c.isDigit && pyDigitsRest cs
  | c :: cs => c.isDigit && pyDigitsRest cs

/-- A nonempty Python digit run: starts with a digit, underscores only
between digits. -/
def pyDigits (cs : List Char) : Bool :=
  match cs with
  | [] => false
  | c :: rest => c.isDigit && pyDigitsRest rest

/-- Drop the underscore digit separators before computing a value. -/
def removeUnderscores (cs : List Char) : List Char :=
  cs.filter (fun c => c != '_')

/-- Model of Python `int(s)`: surrounding whitespace, an optional sign, and
a digit run with optional single underscores between digits. -/
def pyIntParse (s : String) : Option Int :=
  let sp := parseSign (stripChars s.data)
  if pyDigits sp.2 then some (sp.1 * decValue (removeUnderscores sp.2)) else none

/-- The values Python `float(s)` can produce; finite values are modelled as
the exact rationals their literals denote. -/
inductive PyFloat where
  | finite (q : Rat)
  | inf
  | negInf
  | nan
deriving DecidableEq, Repr

/-- The unsigned decimal part of a Python float literal: mantissa with
optional fraction, optional exponent, underscores between digits. -/
def pyFloatBody (cs : List Char) : Option Rat :=
  let me := splitFirst (fun c => c == 'e' || c == 'E') cs
  let mant : Option Rat :=
    match splitFirst (fun c => c == '.') me.1 with
    | (ip, none) => if pyDigits ip then some ((decValue (removeUnderscores ip) : Rat)) else none
    | (ip, some fp) =>
      if (ip.isEmpty || pyDigits ip) && (fp.isEmpty || pyDigits fp) && !(ip.isEmpty && fp.isEmpty) then
        some (mantissaVal (removeUnderscores ip) (removeUnderscores fp))
      else none
  match mant, me.2 with
  | some m, none => some m
  | some m, some ec =>
    let es := parseSign ec
    if pyDigits es.2 then some (m * (10 : Rat) ^ (es.1 * (decValue (removeUnderscores es.2) : Int)))
    else none
  | none, _ => none

/-- Model of Python `float(s)`: surrounding whitespace, an optional sign,
then inf / infinity / nan (case-insensitive) or a decimal literal. -/
def pyFloatParse (s : String) : Option PyFloat :=
  let sp := parseSign (stripChars s.data)
  let low := sp.2.map Char.toLower
  if low = ['i','n','f'] ∨ low = ['i','n','f','i','n','i','t','y'] then
    some (if sp.1 = 1 then .inf else .negInf)
  else if low = ['n','a','n'] then some .nan
  else (pyFloatBody sp.2).map (fun q => .finite (sp.1 * q))

/-!
The tkinter input dialog and its MCP tool wrapper, from
`src/human_in_the_loop/dialogs/input.py` (InputDialog.on_ok,
BaseDialog.on_cancel) and `src/human_in_the_loop/tools/dialog_tools.py`
(get_user_input, dialog-result handling with the GUI available and no
exception raised).
-/

/-- The input kinds accepted by the tkinter input dialog. -/
inductive InputType where
  | text
  | integer
  | float
deriving DecidableEq, Repr

/-- A dialog result value: the entry string, or the number Python's
`int()` / `float()` produced from it. -/
inductive DialogValue where
  | str (s : String)
  | int (n : Int)
  | float (f : PyFloat)
deriving DecidableEq, Repr

/-- `InputDialog.on_ok`: computes `self.result` from the entry text.  An
empty entry gives None; for integer and float kinds a `ValueError` from
`int()` / `float()` is caught and also sets the result to None. -/
def inputDialogOnOk (value : String) (input_type : InputType) : Option DialogValue :=
  match input_type with
  | .integer =>
    if value = "" then none
    else
      match pyIntParse value with
      | some n => some (.int n)
      | none => none
  | .float =>
    if value = "" then none
    else
      match pyFloatParse value with
      | some f => some (.float f)
      | none => none
  | .text => if value = "" then none else some (.str value)

/-- `BaseDialog.on_cancel`: cancelling sets the result to None. -/
def inputDialogOnCancel : Option DialogValue := none

/-- The dictionary returned by the get_user_input tool on its dialog-result
paths (`tools/dialog_tools.py` lines 55-74). -/
structure UserInputToolResult where
  success : Bool
  user_input : Option DialogValue
  input_type : InputType
  cancelled : Bool
deriving DecidableEq, Repr

/-- `get_user_input` from `tools/dialog_tools.py`: maps the dialog result to
the tool response (GUI available, no exception raised).  A None dialog
result is reported as a cancellation. -/
def toolGetUserInput (dialogResult : Option DialogValue) (input_type : InputType) :
    UserInputToolResult :=
  match dialogResult with
  | some r => ⟨true, some r, input_type, false⟩
  | none => ⟨false, none, input_type, true⟩

/-!
The v4.1 server tools from `src/human_in_the_loop_mcp/server.py`.  Each
tool body is a function of the outcome of its `ctx.elicit` call — the
client's action, or a raised exception (`Except.error`).  Results are
restricted to the dictionary's success and error fields; the human-readable
result message is formatting only.  Where a tool's elicitation count
matters it is returned alongside the result.
-/

/-- Outcome of a `ctx.elicit` call: the action the client took. -/
inductive ElicitAction where
  | accept (data : String)
  | decline
  | cancel
deriving DecidableEq, Repr

/-- An elicitation either returns an action or raises. -/
abbrev ElicitOutcome := Except String ElicitAction

/-- The success and error fields of a v4.1 tool result dictionary. -/
structure V41Result where
  success : Bool
  error : Option String
deriving DecidableEq, Repr

/-- `get_user_input` (v4.1 server.py lines 60-110): elicit a string, then
convert it when an integer or float was requested; conversion failure is an
in-band error result. -/
def v41GetUserInput (input_type : String) (elicit : ElicitOutcome) :
    Option V41Result × Nat :=
  match elicit with
  | .error e => (some ⟨false, some e⟩, 1)
  | .ok (.accept d) =>
    if input_type = "integer" then
      match pyIntParse d with
      | some _ => (some ⟨true, none⟩, 1)
      | none => (some ⟨false, some ("Invalid integer: " ++ d)⟩, 1)
    else if input_type = "float" then
      match pyFloatParse d with
      | some _ => (some ⟨true, none⟩, 1)
      | none => (some ⟨false, some ("Invalid float: " ++ d)⟩, 1)
    else (some ⟨true, none⟩, 1)
  | .ok _ => (some ⟨false, some "User cancelled input request"⟩, 1)

/-- `get_user_choice` (v4.1 server.py lines 135-170): an empty choice list
returns an error before the elicitation; otherwise the elicitation runs
once. -/
def v41GetUserChoice (choices : List String) (elicit : ElicitOutcome) :
    Option V41Result × Nat :=
  if choices.isEmpty then (some ⟨false, some "No choices provided"⟩, 0)
  else
    match elicit with
    | .error e => (some ⟨false, some e⟩, 1)
    | .ok (.accept _) => (some ⟨true, none⟩, 1)
    | .ok _ => (some ⟨false, some "User cancelled choice request"⟩, 1)

/-- `show_confirmation_dialog` (v4.1 server.py lines 195-223): both the
accept and the decline branch return success. -/
def v41ShowConfirmationDialog (elicit : ElicitOutcome) : Option V41Result × Nat :=
  match elicit with
  | .error e => (some ⟨false, some e⟩, 1)
  | .ok (.accept _) => (some ⟨true, none⟩, 1)
  | .ok _ => (some ⟨true, none⟩, 1)

/-- `show_info_message` (v4.1 server.py lines 246-262): the except branch
only logs, so the function falls off the end and returns None. -/
def v41ShowInfoMessage (elicit : ElicitOutcome) : Option V41Result × Nat :=
  match elicit with
  | .error _ => (none, 1)
  | .ok _ => (some ⟨true, none⟩, 1)

/-- `health_check` (v4.1 server.py lines 275-332): no elicitation; the body
either builds the health dictionary or its except branch reports the
exception in-band. -/
def v41HealthCheck (body : Except String Unit) : Option V41Result :=
  match body with
  | .error e => some ⟨false, some e⟩
  | .ok _ => some ⟨true, none⟩

/-!
Characterization of the integer literal parser against a declarative
description of base-10 integer literals.
-/

/-- A base-10 integer literal: at most one leading sign, then at least one
decimal digit and nothing else. -/
def IsIntLiteral (s : String) : Prop :=
  ∃ ds, ds ≠ [] ∧ (∀ c ∈ ds, c.isDigit = true) ∧
    (s.data = ds ∨ s.data = '+' :: ds ∨ s.data = '-' :: ds)

theorem isDigitRun_iff (cs : List Char) :
    isDigitRun cs = true ↔ cs ≠ [] ∧ ∀ c ∈ cs, c.isDigit = true := by
  simp [isDigitRun, List.all_eq_true, List.isEmpty_iff]

theorem isDigit_ne_plus {c : Char} (h : c.isDigit = true) : c ≠ '+' := by
  rintro rfl; exact absurd h (by decide)

theorem isDigit_ne_minus {c : Char} (h : c.isDigit = true) : c ≠ '-' := by
  rintro rfl; exact absurd h (by decide)

theorem parseSign_nil : parseSign [] = (1, []) := rfl

theorem parseSign_plus (rest : List Char) : parseSign ('+' :: rest) = (1, rest) := rfl

theorem parseSign_minus (rest : List Char) : parseSign ('-' :: rest) = (-1, rest) := rfl

theorem parseSign_nosign {c : Char} (h1 : c ≠ '+') (h2 : c ≠ '-') (rest : List Char) :
    parseSign (c :: rest) = (1, c :: rest) := by
  simp [parseSign, h1, h2]

theorem specParseInt_eq_some_iff (s : String) (n : Int) :
    specParseInt s = some n ↔
      ∃ ds, ds ≠ [] ∧ (∀ c ∈ ds, c.isDigit = true) ∧
        (((s.data = ds ∨ s.data = '+' :: ds) ∧ n = decValue ds) ∨
         (s.data = '-' :: ds ∧ n = -(decValue ds : Int))) := by
  simp only [specParseInt]
  cases hd : s.data with
  | nil =>
    rw [parseSign_nil]
    constructor
    · intro h; simp [isDigitRun] at h
    · rintro ⟨ds, hne, _, ⟨h1 | h1, _⟩ | ⟨h1, _⟩⟩
      · exact absurd h1.symm hne
      · exact absurd h1 (by simp)
      · exact absurd h1 (by simp)
  | cons c rest =>
    by_cases hp : c = '+'
    · subst hp
      rw [parseSign_plus]
      dsimp only
      by_cases hr : isDigitRun rest
      · rw [if_pos hr]
        obtain ⟨hne, hdig⟩ := (isDigitRun_iff rest).mp hr
        simp only [Option.some.injEq, one_mul]
        constructor
        · intro hv
          exact ⟨rest, hne, hdig, Or.inl ⟨Or.inr rfl, hv.symm⟩⟩
        · rintro ⟨ds, hne2, hdig2, ⟨h1 | h1, hv⟩ | ⟨h1, hv⟩⟩
          · exact absurd ((hdig2 '+') (h1 ▸ List.mem_cons_self _ _)) (by decide)
          · rw [List.cons.injEq] at h1
            obtain ⟨-, rfl⟩ := h1
            exact hv.symm
          · injection h1 with h1c; exact absurd h1c (by decide)
      · rw [if_neg hr]
        constructor
        · intro h; exact absurd h (by simp)
        · rintro ⟨ds, hne2, hdig2, ⟨h1 | h1, hv⟩ | ⟨h1, hv⟩⟩
          · exact absurd ((hdig2 '+') (h1 ▸ List.mem_cons_self _ _)) (by decide)
          · rw [List.cons.injEq] at h1
            obtain ⟨-, rfl⟩ := h1
            exact absurd ((isDigitRun_iff rest).mpr ⟨hne2, hdig2⟩) hr
          · injection h1 with h1c; exact absurd h1c (by decide)
    · by_cases hm : c = '-'
      · subst hm
        rw [parseSign_minus]
        dsimp only
        by_cases hr : isDigitRun rest
        · rw [if_pos hr]
          obtain ⟨hne, hdig⟩ := (isDigitRun_iff rest).mp hr
          simp only [Option.some.injEq, neg_mul, one_mul]
          constructor
          · intro hv
            exact ⟨rest, hne, hdig, Or.inr ⟨rfl, hv.symm⟩⟩
          · rintro ⟨ds, hne2, hdig2, ⟨h1 | h1, hv⟩ | ⟨h1, hv⟩⟩
            · exact absurd ((hdig2 '-') (h1 ▸ List.mem_cons_self _ _)) (by decide)
            · injection h1 with h1c; exact absurd h1c (by decide)
            · rw [List.cons.injEq] at h1
              obtain ⟨-, rfl⟩ := h1
              exact hv.symm
        · rw [if_neg hr]
          constructor
          · intro h; exact absurd h (by simp)
          · rintro ⟨ds, hne2, hdig2, ⟨h1 | h1, hv⟩ | ⟨h1, hv⟩⟩
            · exact absurd ((hdig2 '-') (h1 ▸ List.mem_cons_self _ _)) (by decide)
            · injection h1 with h1c; exact absurd h1c (by decide)
            · rw [List.cons.injEq] at h1
              obtain ⟨-, rfl⟩ := h1
              exact absurd ((isDigitRun_iff rest).mpr ⟨hne2, hdig2⟩) hr
      · rw [parseSign_nosign hp hm]
        dsimp only
        by_cases hr : isDigitRun (c :: rest)
        · rw [if_pos hr]
          obtain ⟨hne, hdig⟩ := (isDigitRun_iff _).mp hr
          simp only [Option.some.injEq, one_mul]
          constructor
          · intro hv
            exact ⟨c :: rest, hne, hdig, Or.inl ⟨Or.inl rfl, hv.symm⟩⟩
          · rintro ⟨ds, hne2, hdig2, ⟨h1 | h1, hv⟩ | ⟨h1, hv⟩⟩
            · rw [h1]; exact hv.symm
            · injection h1 with h1c; exact absurd h1c hp
            · injection h1 with h1c; exact absurd h1c hm
        · rw [if_neg hr]
          constructor
          · intro h; exact absurd h (by simp)
          · rintro ⟨ds, hne2, hdig2, ⟨h1 | h1, hv⟩ | ⟨h1, hv⟩⟩
            · rw [← h1] at hdig2
              exact absurd ((isDigitRun_iff _).mpr ⟨by simp, hdig2⟩) hr
            · injection h1 with h1c; exact absurd h1c hp
            · injection h1 with h1c; exact absurd h1c hm

theorem specParseInt_isSome_iff (s : String) :
    (specParseInt s).isSome = true ↔ IsIntLiteral s := by
  rw [Option.isSome_iff_exists]
  constructor
  · rintro ⟨n, hn⟩
    obtain ⟨ds, hne, hdig, hc⟩ := (specParseInt_eq_some_iff s n).mp hn
    refine ⟨ds, hne, hdig, ?_⟩
    rcases hc with ⟨h1 | h1, _⟩ | ⟨h1, _⟩
    · exact Or.inl h1
    · exact Or.inr (Or.inl h1)
    · exact Or.inr (Or.inr h1)
  · rintro ⟨ds, hne, hdig, h1 | h1 | h1⟩
    · exact ⟨decValue ds, (specParseInt_eq_some_iff s _).mpr ⟨ds, hne, hdig, Or.inl ⟨Or.inl h1, rfl⟩⟩⟩
    · exact ⟨decValue ds, (specParseInt_eq_some_iff s _).mpr ⟨ds, hne, hdig, Or.inl ⟨Or.inr h1, rfl⟩⟩⟩
    · exact ⟨-(decValue ds : Int), (specParseInt_eq_some_iff s _).mpr ⟨ds, hne, hdig, Or.inr ⟨h1, rfl⟩⟩⟩

theorem specParseInt_eq_none_of_not_literal {s : String} (h : ¬ IsIntLiteral s) :
    specParseInt s = none := by
  rcases hp : specParseInt s with _ | n
  · rfl
  · exact absurd ((specParseInt_isSome_iff s).mp (by simp [hp])) h

/-!
Claim theorems for the response validator.
-/

/-- C1: for every kind, validating the empty raw string returns the invalid
triple: isValid false, no value, and the error "Empty response provided". -/
theorem validate_empty_invalid (kind : ResponseKind) :
    validate_prompt_response "" kind = ⟨false, none, "Empty response provided"⟩ :=
  rfl

theorem affirmative_not_negative :
    ∀ x ∈ affirmativeSet, x ∉ negativeSet := by decide

/-- C3: for non-empty confirmation strings, a case-insensitive member of the
affirmative set validates to true, a member of the negative set validates to
false, and anything else is invalid with "Invalid confirmation response". -/
theorem validate_confirmation_cases (s : String) (h : s ≠ "") :
    (lowerString s ∈ affirmativeSet →
      validate_prompt_response s .confirmation = ⟨true, some (.bool true), ""⟩) ∧
    (lowerString s ∈ negativeSet →
      validate_prompt_response s .confirmation = ⟨true, some (.bool false), ""⟩) ∧
    (lowerString s ∉ affirmativeSet → lowerString s ∉ negativeSet →
      validate_prompt_response s .confirmation = ⟨false, none, "Invalid confirmation response"⟩) := by
  refine ⟨fun ha => ?_, fun hn => ?_, fun ha hn => ?_⟩ <;>
    simp only [validate_prompt_response, if_neg h]
  · rw [if_pos (List.elem_iff.mpr ha)]
  · rw [if_neg, if_pos (List.elem_iff.mpr hn)]
    intro hc
    exact affirmative_not_negative _ (List.elem_iff.mp hc) hn
  · rw [if_neg, if_neg]
    · intro hc; exact hn (List.elem_iff.mp hc)
    · intro hc; exact ha (List.elem_iff.mp hc)

/-- Witness for C3 at the concrete input "YES". -/
theorem validate_confirmation_cases_witness :
    validate_prompt_response "YES" .confirmation = ⟨true, some (.bool true), ""⟩ :=
  (validate_confirmation_cases "YES" (by decide)).1 (by decide)

/-- C4: integer validation of a non-empty string: valid exactly on base-10
integer literals with at most one leading sign and no decimal point; the
value is the denoted integer, and any other string is invalid with
"Invalid integer format". -/
theorem validate_integer_correct (s : String) (h : s ≠ "") :
    ((validate_prompt_response s .integer).isValid = true ↔ IsIntLiteral s) ∧
    (∀ ds, ds ≠ [] → (∀ c ∈ ds, c.isDigit = true) →
      ((s.data = ds ∨ s.data = '+' :: ds) →
        validate_prompt_response s .integer = ⟨true, some (.int (decValue ds)), ""⟩) ∧
      (s.data = '-' :: ds →
        validate_prompt_response s .integer = ⟨true, some (.int (-(decValue ds : Int))), ""⟩)) ∧
    (¬ IsIntLiteral s →
      validate_prompt_response s .integer = ⟨false, none, "Invalid integer format"⟩) := by
  refine ⟨?_, ?_, ?_⟩
  · constructor
    · intro hv
      rcases hp : specParseInt s with _ | n
      · simp [validate_prompt_response, h, hp] at hv
      · have := (specParseInt_eq_some_iff s n).mp hp
        obtain ⟨ds, hne, hdig, hc⟩ := this
        refine ⟨ds, hne, hdig, ?_⟩
        rcases hc with ⟨h1 | h1, _⟩ | ⟨h1, _⟩
        · exact Or.inl h1
        · exact Or.inr (Or.inl h1)
        · exact Or.inr (Or.inr h1)
    · intro hlit
      have := (specParseInt_isSome_iff s).mpr hlit
      rcases hp : specParseInt s with _ | n
      · rw [hp] at this; simp at this
      · simp [validate_prompt_response, h, hp]
  · intro ds hne hdig
    constructor
    · intro hs
      have hp : specParseInt s = some (decValue ds) :=
        (specParseInt_eq_some_iff s _).mpr ⟨ds, hne, hdig, Or.inl ⟨hs, rfl⟩⟩
      simp [validate_prompt_response, h, hp]
    · intro hs
      have hp : specParseInt s = some (-(decValue ds : Int)) :=
        (specParseInt_eq_some_iff s _).mpr ⟨ds, hne, hdig, Or.inr ⟨hs, rfl⟩⟩
      simp [validate_prompt_response, h, hp]
  · intro hni
    simp [validate_prompt_response, h, specParseInt_eq_none_of_not_literal hni]

/-- Witness for C4 at the concrete input "42". -/
theorem validate_integer_correct_witness :
    validate_prompt_response "42" .integer = ⟨true, some (.int 42), ""⟩ :=
  ((validate_integer_correct "42" (by decide)).2.1 ['4', '2'] (by decide) (by decide)).1
    (Or.inl rfl)

/-- Claim-side choice token conversion: an integer-literal token becomes the
integer it denotes, any other token stays as the trimmed string. -/
def TokenValue (t : String) (v : Value) : Prop :=
  (∃ ds, ds ≠ [] ∧ (∀ c ∈ ds, c.isDigit = true) ∧
    (((t.data = ds ∨ t.data = '+' :: ds) ∧ v = .int (decValue ds)) ∨
     (t.data = '-' :: ds ∧ v = .int (-(decValue ds : Int))))) ∨
  (¬ IsIntLiteral t ∧ v = .str t)

theorem tokenValue_convert (t : String) : TokenValue t (convertChoiceToken t) := by
  unfold convertChoiceToken
  rcases hp : specParseInt t with _ | n
  · right
    refine ⟨fun hlit => ?_, rfl⟩
    have := (specParseInt_isSome_iff t).mpr hlit
    rw [hp] at this; simp at this
  · left
    obtain ⟨ds, hne, hdig, hc⟩ := (specParseInt_eq_some_iff t n).mp hp
    refine ⟨ds, hne, hdig, ?_⟩
    rcases hc with ⟨hs, hv⟩ | ⟨hs, hv⟩
    · exact Or.inl ⟨hs, by rw [hv]⟩
    · exact Or.inr ⟨hs, by rw [hv]⟩

theorem forall₂_map_self {α β : Type} (R : α → β → Prop) (f : α → β)
    (hf : ∀ a, R a (f a)) : ∀ l : List α, List.Forall₂ R l (l.map f)
  | [] => List.Forall₂.nil
  | a :: l => List.Forall₂.cons (hf a) (forall₂_map_self R f hf l)

/-- C2: choice validation of a non-empty string: the raw text is split on
commas, each token trimmed, integer-literal tokens converted to integers and
other tokens kept as trimmed strings; a single token stays unwrapped, and
several tokens give the ordered list of converted tokens, duplicates kept. -/
theorem validate_choice_correct (s : String) (h : s ≠ "") :
    (∀ t, (splitComma s).map trimString = [t] →
      ∃ v, TokenValue t v ∧
        validate_prompt_response s .choice = ⟨true, some v, ""⟩) ∧
    (∀ ts, (splitComma s).map trimString = ts → 2 ≤ ts.length →
      ∃ vs, List.Forall₂ TokenValue ts vs ∧
        validate_prompt_response s .choice = ⟨true, some (.list vs), ""⟩) := by
  constructor
  · intro t ht
    exact ⟨convertChoiceToken t, tokenValue_convert t,
      by simp [validate_prompt_response, h, ht]⟩
  · intro ts hts hlen
    refine ⟨ts.map convertChoiceToken, forall₂_map_self _ _ tokenValue_convert ts, ?_⟩
    rcases ts with _ | ⟨a, _ | ⟨b, rest⟩⟩
    · simp at hlen
    · simp at hlen
    · simp [validate_prompt_response, h, hts]

/-- Witness for C2 at the concrete input "1, Option B, 3". -/
theorem validate_choice_correct_witness :
    ∃ vs, List.Forall₂ TokenValue ["1", "Option B", "3"] vs ∧
      validate_prompt_response "1, Option B, 3" .choice = ⟨true, some (.list vs), ""⟩ :=
  (validate_choice_correct "1, Option B, 3" (by decide)).2 ["1", "Option B", "3"]
    (by rfl) (by decide)

/-- C6: the validator is a total function and reports every outcome through
the returned triple: either valid with a value and an empty error message,
or invalid with no value and one of the four fixed error messages.  In this
embedding totality of the Lean function models "never raises". -/
theorem validate_never_raises (s : String) (kind : ResponseKind) :
    (∃ v, validate_prompt_response s kind = ⟨true, some v, ""⟩) ∨
    ((validate_prompt_response s kind).isValid = false ∧
      (validate_prompt_response s kind).value = none ∧
      (validate_prompt_response s kind).error ∈
        ["Empty response provided", "Invalid integer format",
         "Invalid float format", "Invalid confirmation response"]) := by
  by_cases h : s = ""
  · subst h
    right
    refine ⟨rfl, rfl, ?_⟩
    simp [validate_prompt_response]
  · cases kind with
    | text => exact Or.inl ⟨.str s, by simp [validate_prompt_response, h]⟩
    | integer =>
      rcases hp : specParseInt s with _ | n
      · right
        simp [validate_prompt_response, h, hp]
      · exact Or.inl ⟨.int n, by simp [validate_prompt_response, h, hp]⟩
    | float =>
      rcases hp : specParseFloat s with _ | q
      · right
        simp [validate_prompt_response, h, hp]
      · exact Or.inl ⟨.float q, by simp [validate_prompt_response, h, hp]⟩
    | choice =>
      rcases ht : (splitComma s).map trimString with _ | ⟨t, _ | ⟨b, rest⟩⟩
      · exact Or.inl ⟨.list ([].map convertChoiceToken),
          by simp [validate_prompt_response, h, ht]⟩
      · exact Or.inl ⟨convertChoiceToken t, by simp [validate_prompt_response, h, ht]⟩
      · exact Or.inl ⟨.list ((t :: b :: rest).map convertChoiceToken),
          by simp [validate_prompt_response, h, ht]⟩
    | confirmation =>
      by_cases ha : lowerString s ∈ affirmativeSet
      · exact Or.inl ⟨.bool true, by simp [validate_prompt_response, h, ha]⟩
      · by_cases hn : lowerString s ∈ negativeSet
        · exact Or.inl ⟨.bool false, by simp [validate_prompt_response, h, ha, hn]⟩
        · right
          simp [validate_prompt_response, h, ha, hn]

/-- C7: determinism and statelessness: in a replayed call sequence the
outcome of a validation call depends only on its own arguments; whatever
calls ran before it never change its result. -/
theorem validate_deterministic (pre₁ pre₂ : List (String × ResponseKind))
    (s : String) (kind : ResponseKind) :
    (runValidationCalls (pre₁ ++ [(s, kind)])).getLast? =
      (runValidationCalls (pre₂ ++ [(s, kind)])).getLast? := by
  simp [runValidationCalls]

/-- C8: in the tkinter dialog layer, a non-empty integer or float entry that
fails Python's numeric conversion sets the dialog result to None — exactly
the cancellation value — so the get_user_input tool reports it as success
false, cancelled true, user_input none, indistinguishable from a user
cancellation, and no format-error message exists on this path. -/
theorem invalid_numeric_entry_reported_as_cancelled (value : String) (t : InputType)
    (hne : value ≠ "")
    (hfail : (t = .integer ∧ pyIntParse value = none) ∨
             (t = .float ∧ pyFloatParse value = none)) :
    inputDialogOnOk value t = inputDialogOnCancel ∧
    toolGetUserInput (inputDialogOnOk value t) t =
      ⟨false, none, t, true⟩ ∧
    toolGetUserInput (inputDialogOnOk value t) t =
      toolGetUserInput inputDialogOnCancel t := by
  rcases hfail with ⟨rfl, hp⟩ | ⟨rfl, hp⟩ <;>
    simp [inputDialogOnOk, inputDialogOnCancel, toolGetUserInput, hne, hp]

/-- Witness for C8 at the concrete entry "abc" with integer input type. -/
theorem invalid_numeric_entry_reported_as_cancelled_witness :
    toolGetUserInput (inputDialogOnOk "abc" .integer) .integer =
      ⟨false, none, .integer, true⟩ :=
  (invalid_numeric_entry_reported_as_cancelled "abc" .integer (by decide)
    (Or.inl ⟨rfl, by decide⟩)).2.1

/-- C9: in the v4.1 server, get_user_choice with an empty choices list
returns success false with error "No choices provided" and performs zero
elicitations, whatever the elicitation transport would have done. -/
theorem get_user_choice_empty_short_circuits (elicit : ElicitOutcome) :
    v41GetUserChoice [] elicit = (some ⟨false, some "No choices provided"⟩, 0) :=
  rfl

/-- C10: in the v4.1 server, show_info_message is the only tool whose
exception path yields no structured result: when the elicitation raises it
returns None, while every other tool's exception path returns a dictionary
with success false and the error set. -/
theorem show_info_message_exception_unstructured (e : String) (it : String)
    (choices : List String) (hc : choices ≠ []) :
    (v41ShowInfoMessage (.error e)).1 = none ∧
    (v41GetUserInput it (.error e)).1 = some ⟨false, some e⟩ ∧
    (v41GetUserChoice choices (.error e)).1 = some ⟨false, some e⟩ ∧
    (v41ShowConfirmationDialog (.error e)).1 = some ⟨false, some e⟩ ∧
    v41HealthCheck (.error e) = some ⟨false, some e⟩ := by
  refine ⟨rfl, rfl, ?_, rfl, rfl⟩
  simp [v41GetUserChoice, hc]

/-- Witness for C10 at a concrete exception and arguments. -/
theorem show_info_message_exception_unstructured_witness :
    (v41ShowInfoMessage (.error "boom")).1 = none :=
  (show_info_message_exception_unstructured "boom" "text" ["a"] (by decide)).1

/-!
Characterization of the float literal parser against a declarative
description of floating-point literals.
-/

/-- The mantissa of a floating-point literal: a digit run, or two digit runs
around one decimal point with at least one digit overall. -/
def IsMantissa (cs : List Char) : Prop :=
  (cs ≠ [] ∧ ∀ c ∈ cs, c.isDigit = true) ∨
  (∃ ip fp, cs = ip ++ '.' :: fp ∧ ip ++ fp ≠ [] ∧ ∀ c ∈ ip ++ fp, c.isDigit = true)

/-- An exponent part: at most one leading sign then at least one digit. -/
def IsExpPart (cs : List Char) : Prop :=
  ∃ body, body ≠ [] ∧ (∀ c ∈ body, c.isDigit = true) ∧
    (cs = body ∨ cs = '+' :: body ∨ cs = '-' :: body)

/-- An unsigned floating-point literal body: a mantissa, optionally followed
by e or E and an exponent part. -/
def IsFloatBody (cs : List Char) : Prop :=
  IsMantissa cs ∨
  ∃ m e ex, cs = m ++ e :: ex ∧ (e = 'e' ∨ e = 'E') ∧ IsMantissa m ∧ IsExpPart ex

/-- A floating-point literal: at most one leading sign then a literal body. -/
def IsFloatLiteral (s : String) : Prop :=
  ∃ rest, (s.data = rest ∨ s.data = '+' :: rest ∨ s.data = '-' :: rest) ∧ IsFloatBody rest

theorem splitFirst_none_inv (p : Char → Bool) (cs b : List Char)
    (h : splitFirst p cs = (b, none)) : b = cs ∧ ∀ x ∈ cs, p x = false := by
  induction cs generalizing b with
  | nil =>
    simp only [splitFirst, Prod.mk.injEq] at h
    exact ⟨h.1.symm, by simp⟩
  | cons c cs ih =>
    cases hpc : p c with
    | true =>
      simp [splitFirst, hpc] at h
    | false =>
      rcases hr : splitFirst p cs with ⟨r1, r2⟩
      simp only [splitFirst, hpc, Bool.false_eq_true, if_false, hr, Prod.mk.injEq] at h
      obtain ⟨hb, hr2⟩ := h
      obtain ⟨rfl, hall⟩ := ih r1 (by rw [hr, hr2])
      refine ⟨hb.symm, ?_⟩
      intro x hx
      rcases List.mem_cons.mp hx with rfl | hx
      · exact hpc
      · exact hall x hx

theorem splitFirst_some_inv (p : Char → Bool) (cs b a : List Char)
    (h : splitFirst p cs = (b, some a)) :
    ∃ c, p c = true ∧ (∀ x ∈ b, p x = false) ∧ cs = b ++ c :: a := by
  induction cs generalizing b with
  | nil => simp [splitFirst] at h
  | cons c cs ih =>
    cases hpc : p c with
    | true =>
      simp only [splitFirst, hpc, if_true, Prod.mk.injEq, Option.some.injEq] at h
      obtain ⟨rfl, rfl⟩ := h
      exact ⟨c, hpc, by simp, rfl⟩
    | false =>
      rcases hr : splitFirst p cs with ⟨r1, r2⟩
      simp only [splitFirst, hpc, Bool.false_eq_true, if_false, hr, Prod.mk.injEq] at h
      obtain ⟨hb, hr2⟩ := h
      obtain ⟨e, hpe, hall, heq⟩ := ih r1 (by rw [hr, hr2])
      refine ⟨e, hpe, ?_, ?_⟩
      · intro x hx
        rw [← hb] at hx
        rcases List.mem_cons.mp hx with rfl | hx
        · exact hpc
        · exact hall x hx
      · rw [← hb, heq]; rfl

theorem isDigit_ne_dot {c : Char} (h : c.isDigit = true) : c ≠ '.' := by
  rintro rfl; exact absurd h (by decide)

theorem isDigit_not_eE {c : Char} (h : c.isDigit = true) : (c == 'e' || c == 'E') = false := by
  have h1 : c ≠ 'e' := by rintro rfl; exact absurd h (by decide)
  have h2 : c ≠ 'E' := by rintro rfl; exact absurd h (by decide)
  simp [h1, h2]

theorem mantissa_no_eE {cs : List Char} (h : IsMantissa cs) :
    ∀ c ∈ cs, (c == 'e' || c == 'E') = false := by
  intro c hc
  rcases h with ⟨-, hdig⟩ | ⟨ip, fp, rfl, -, hdig⟩
  · exact isDigit_not_eE (hdig c hc)
  · rcases List.mem_append.mp hc with hc' | hc'
    · exact isDigit_not_eE (hdig c (List.mem_append.mpr (Or.inl hc')))
    · rcases List.mem_cons.mp hc' with rfl | hc''
      · decide
      · exact isDigit_not_eE (hdig c (List.mem_append.mpr (Or.inr hc'')))

theorem append_pred_unique (p : Char → Bool) {x x' : Char} :
    ∀ {a a' b b' : List Char}, a ++ x :: b = a' ++ x' :: b' →
      p x = true → p x' = true →
      (∀ c ∈ a, p c = false) → (∀ c ∈ a', p c = false) →
      a = a' ∧ x = x' ∧ b = b' := by
  intro a
  induction a with
  | nil =>
    intro a' b b' h hx hx' ha ha'
    cases a' with
    | nil =>
      simp only [List.nil_append, List.cons.injEq] at h
      exact ⟨rfl, h.1, h.2⟩
    | cons d a' =>
      simp only [List.nil_append, List.cons_append, List.cons.injEq] at h
      obtain ⟨h1, -⟩ := h
      have hd : p d = false := ha' d (by simp)
      rw [← h1] at hd
      rw [hd] at hx
      exact absurd hx (by simp)
  | cons d a ih =>
    intro a' b b' h hx hx' ha ha'
    cases a' with
    | nil =>
      simp only [List.cons_append, List.nil_append, List.cons.injEq] at h
      obtain ⟨h1, -⟩ := h
      have hd : p d = false := ha d (by simp)
      rw [h1] at hd
      rw [hd] at hx'
      exact absurd hx' (by simp)
    | cons d' a' =>
      simp only [List.cons_append, List.cons.injEq] at h
      obtain ⟨rfl, h2⟩ := h
      obtain ⟨rfl, rfl, rfl⟩ :=
        ih h2 hx hx' (fun c hc => ha c (by simp [hc])) (fun c hc => ha' c (by simp [hc]))
      exact ⟨rfl, rfl, rfl⟩

theorem parseMantissa_isSome_iff (cs : List Char) :
    (parseMantissa cs).isSome = true ↔ IsMantissa cs := by
  unfold parseMantissa
  rcases hsp : splitFirst (fun c => c == '.') cs with ⟨ip, o⟩
  cases o with
  | none =>
    obtain ⟨hip, hnd⟩ := splitFirst_none_inv _ cs ip hsp
    subst hip
    dsimp only
    constructor
    · intro hv
      rcases hr : isDigitRun ip with _ | _
      · rw [hr] at hv; simp at hv
      · exact Or.inl ((isDigitRun_iff ip).mp hr)
    · rintro (⟨hne, hdig⟩ | ⟨ip', fp', heq, -, -⟩)
      · rw [(isDigitRun_iff ip).mpr ⟨hne, hdig⟩]; rfl
      · have := hnd '.' (by rw [heq]; exact List.mem_append.mpr (Or.inr (List.mem_cons_self _ _)))
        simp at this
  | some fp =>
    obtain ⟨e, hpe, hnd, heq⟩ := splitFirst_some_inv _ cs ip fp hsp
    have he : e = '.' := by simpa using hpe
    subst he
    dsimp only
    have hnd' : ∀ c ∈ ip, c ≠ '.' := by
      intro c hc
      have := hnd c hc
      simpa using this
    constructor
    · intro hv
      rcases hcond : ((ip ++ fp).all Char.isDigit && !(ip.isEmpty && fp.isEmpty)) with _ | _
      · rw [hcond] at hv; simp at hv
      · rw [Bool.and_eq_true] at hcond
        obtain ⟨hall, hnem⟩ := hcond
        refine Or.inr ⟨ip, fp, heq, ?_, ?_⟩
        · intro hnil
          rw [List.append_eq_nil] at hnil
          simp [hnil.1, hnil.2] at hnem
        · intro c hc
          exact (List.all_eq_true.mp hall) c hc
    · rintro (⟨-, hdig⟩ | ⟨ip', fp', heq', hne', hdig'⟩)
      · have := hdig '.' (by rw [heq]; exact List.mem_append.mpr (Or.inr (List.mem_cons_self _ _)))
        exact absurd this (by decide)
      · have hnd'' : ∀ c ∈ ip', c ≠ '.' := by
          intro c hc
          exact isDigit_ne_dot (hdig' c (List.mem_append.mpr (Or.inl hc)))
        have hud : ip = ip' ∧ fp = fp' := by
          have h2 : ip ++ '.' :: fp = ip' ++ '.' :: fp' := by rw [← heq, ← heq']
          obtain ⟨h3, -, h4⟩ := append_pred_unique (fun c => c == '.')
            h2 (by decide) (by decide)
            (fun c hc => by simpa using hnd' c hc)
            (fun c hc => by simpa using hnd'' c hc)
          exact ⟨h3, h4⟩
        obtain ⟨rfl, rfl⟩ := hud
        have hall : (ip ++ fp).all Char.isDigit = true := List.all_eq_true.mpr hdig'
        have hnem : (ip.isEmpty && fp.isEmpty) = false := by
          rcases hip : ip.isEmpty with _ | _
          · simp
          · rcases hfp : fp.isEmpty with _ | _
            · simp
            · rw [List.isEmpty_iff] at hip hfp
              exact absurd (by rw [hip, hfp]; rfl) hne'
        rw [hall, hnem]
        rfl

theorem specParseInt_mk_isSome (cs : List Char) :
    (specParseInt (String.mk cs)).isSome = isDigitRun (parseSign cs).2 := by
  unfold specParseInt
  rcases h : isDigitRun (parseSign cs).2 with _ | _ <;> simp [h]

theorem expPart_iff (cs : List Char) :
    isDigitRun (parseSign cs).2 = true ↔ IsExpPart cs := by
  rw [← specParseInt_mk_isSome]
  rw [specParseInt_isSome_iff]
  constructor
  · rintro ⟨ds, hne, hdig, hc⟩
    exact ⟨ds, hne, hdig, hc⟩
  · rintro ⟨ds, hne, hdig, hc⟩
    exact ⟨ds, hne, hdig, hc⟩

theorem parseFloatBody_isSome_iff (cs : List Char) :
    (parseFloatBody cs).isSome = true ↔ IsFloatBody cs := by
  unfold parseFloatBody
  rcases hsp : splitFirst (fun c => c == 'e' || c == 'E') cs with ⟨m, o⟩
  cases o with
  | none =>
    obtain ⟨hm, hnoe⟩ := splitFirst_none_inv _ cs m hsp
    subst hm
    dsimp only
    rcases hpm : parseMantissa m with _ | q
    · constructor
      · intro hv; simp at hv
      · rintro (hmant | ⟨m', e, ex, heq, he, -, -⟩)
        · have := (parseMantissa_isSome_iff m).mpr hmant
          rw [hpm] at this; simp at this
        · have := hnoe e (by rw [heq]; exact List.mem_append.mpr (Or.inr (List.mem_cons_self _ _)))
          rcases he with rfl | rfl <;> simp at this
    · constructor
      · intro _
        exact Or.inl ((parseMantissa_isSome_iff m).mp (by rw [hpm]; rfl))
      · intro _
        rfl
  | some ec =>
    obtain ⟨e, hpe, hnoe, heq⟩ := splitFirst_some_inv _ cs m ec hsp
    have he : e = 'e' ∨ e = 'E' := by
      rcases Bool.or_eq_true_iff.mp hpe with h1 | h1
      · exact Or.inl (by simpa using h1)
      · exact Or.inr (by simpa using h1)
    dsimp only
    rcases hpm : parseMantissa m with _ | q
    · constructor
      · intro hv; simp at hv
      · rintro (hmant | ⟨m', e', ex', heq', he', hmant', -⟩)
        · have := mantissa_no_eE hmant e
            (by rw [heq]; exact List.mem_append.mpr (Or.inr (List.mem_cons_self _ _)))
          rw [hpe] at this
          exact absurd this (by simp)
        · have h2 : m ++ e :: ec = m' ++ e' :: ex' := by rw [← heq, ← heq']
          have hpe' : (fun c => c == 'e' || c == 'E') e' = true := by
            rcases he' with rfl | rfl <;> decide
          obtain ⟨h3, -, -⟩ := append_pred_unique (fun c => c == 'e' || c == 'E')
            h2 hpe hpe' hnoe (mantissa_no_eE hmant')
          subst h3
          have := (parseMantissa_isSome_iff m).mpr hmant'
          rw [hpm] at this; simp at this
    · constructor
      · intro hv
        dsimp only at hv
        rcases hex : isDigitRun (parseSign ec).2 with _ | _
        · rw [hex] at hv; simp at hv
        · exact Or.inr ⟨m, e, ec, heq, he,
            (parseMantissa_isSome_iff m).mp (by rw [hpm]; rfl),
            (expPart_iff ec).mp hex⟩
      · rintro (hmant | ⟨m', e', ex', heq', he', hmant', hexp'⟩)
        · have := mantissa_no_eE hmant e
            (by rw [heq]; exact List.mem_append.mpr (Or.inr (List.mem_cons_self _ _)))
          rw [hpe] at this
          exact absurd this (by simp)
        · have h2 : m ++ e :: ec = m' ++ e' :: ex' := by rw [← heq, ← heq']
          have hpe' : (fun c => c == 'e' || c == 'E') e' = true := by
            rcases he' with rfl | rfl <;> decide
          obtain ⟨h3, -, h4⟩ := append_pred_unique (fun c => c == 'e' || c == 'E')
            h2 hpe hpe' hnoe (mantissa_no_eE hmant')
          subst h3
          subst h4
          dsimp only
          rw [(expPart_iff ec).mpr hexp']
          rfl

theorem mantissa_head {cs : List Char} (h : IsMantissa cs) :
    ∃ c rest, cs = c :: rest ∧ (c.isDigit = true ∨ c = '.') := by
  rcases h with ⟨hne, hdig⟩ | ⟨ip, fp, rfl, hne, hdig⟩
  · rcases cs with _ | ⟨c, rest⟩
    · exact absurd rfl hne
    · exact ⟨c, rest, rfl, Or.inl (hdig c (by simp))⟩
  · rcases ip with _ | ⟨c, ip'⟩
    · exact ⟨'.', fp, rfl, Or.inr rfl⟩
    · exact ⟨c, ip' ++ '.' :: fp, rfl, Or.inl (hdig c (by simp))⟩

theorem floatBody_head {cs : List Char} (h : IsFloatBody cs) :
    ∃ c rest, cs = c :: rest ∧ (c.isDigit = true ∨ c = '.') := by
  rcases h with hmant | ⟨m, e, ex, rfl, -, hmant, -⟩
  · exact mantissa_head hmant
  · obtain ⟨c, r, hcr, hcd⟩ := mantissa_head hmant
    exact ⟨c, r ++ e :: ex, by rw [hcr]; rfl, hcd⟩

theorem specParseFloat_isSome_iff (s : String) :
    (specParseFloat s).isSome = true ↔ IsFloatLiteral s := by
  unfold specParseFloat
  simp only [Option.isSome_map']
  rw [parseFloatBody_isSome_iff]
  cases hd : s.data with
  | nil =>
    rw [parseSign_nil]
    dsimp only
    constructor
    · intro hb
      obtain ⟨c, r, hcr, -⟩ := floatBody_head hb
      exact absurd hcr (by simp)
    · rintro ⟨r, h1 | h1 | h1, hbody⟩
      · rw [hd] at h1
        obtain ⟨c, r', hcr, -⟩ := floatBody_head hbody
        rw [← h1] at hcr
        exact absurd hcr (by simp)
      · rw [hd] at h1; exact absurd h1 (by simp)
      · rw [hd] at h1; exact absurd h1 (by simp)
  | cons c rest =>
    by_cases hp : c = '+'
    · subst hp
      rw [parseSign_plus]
      dsimp only
      constructor
      · intro hb
        exact ⟨rest, Or.inr (Or.inl hd), hb⟩
      · rintro ⟨r, h1 | h1 | h1, hbody⟩
        · rw [hd] at h1
          obtain ⟨c', r', hcr, hcd⟩ := floatBody_head hbody
          rw [← h1] at hcr
          rw [List.cons.injEq] at hcr
          obtain ⟨hc', -⟩ := hcr
          rcases hcd with hdd | hdd
          · rw [← hc'] at hdd; exact absurd hdd (by decide)
          · rw [← hc'] at hdd; exact absurd hdd (by decide)
        · rw [hd] at h1
          rw [List.cons.injEq] at h1
          obtain ⟨-, h2⟩ := h1
          rw [h2]; exact hbody
        · rw [hd] at h1
          rw [List.cons.injEq] at h1
          exact absurd h1.1 (by decide)
    · by_cases hm : c = '-'
      · subst hm
        rw [parseSign_minus]
        dsimp only
        constructor
        · intro hb
          exact ⟨rest, Or.inr (Or.inr hd), hb⟩
        · rintro ⟨r, h1 | h1 | h1, hbody⟩
          · rw [hd] at h1
            obtain ⟨c', r', hcr, hcd⟩ := floatBody_head hbody
            rw [← h1] at hcr
            rw [List.cons.injEq] at hcr
            obtain ⟨hc', -⟩ := hcr
            rcases hcd with hdd | hdd
            · rw [← hc'] at hdd; exact absurd hdd (by decide)
            · rw [← hc'] at hdd; exact absurd hdd (by decide)
          · rw [hd] at h1
            rw [List.cons.injEq] at h1
            exact absurd h1.1 (by decide)
          · rw [hd] at h1
            rw [List.cons.injEq] at h1
            obtain ⟨-, h2⟩ := h1
            rw [h2]; exact hbody
      · rw [parseSign_nosign hp hm]
        dsimp only
        constructor
        · intro hb
          exact ⟨c :: rest, Or.inl hd, hb⟩
        · rintro ⟨r, h1 | h1 | h1, hbody⟩
          · rw [hd] at h1
            rw [h1]; exact hbody
          · rw [hd] at h1
            rw [List.cons.injEq] at h1
            exact absurd h1.1 hp
          · rw [hd] at h1
            rw [List.cons.injEq] at h1
            exact absurd h1.1 hm

/-- C5: float validation of a non-empty string: valid exactly on
floating-point literals (optional sign, digits with an optional single
decimal point, optional e/E exponent); the value is the literal's exact
rational denotation, and any other string is invalid with
"Invalid float format". -/
theorem validate_float_correct (s : String) (h : s ≠ "") :
    ((validate_prompt_response s .float).isValid = true ↔ IsFloatLiteral s) ∧
    (IsFloatLiteral s →
      ∃ q, validate_prompt_response s .float = ⟨true, some (.float q), ""⟩) ∧
    (¬ IsFloatLiteral s →
      validate_prompt_response s .float = ⟨false, none, "Invalid float format"⟩) := by
  have key := specParseFloat_isSome_iff s
  refine ⟨?_, ?_, ?_⟩
  · rcases hp : specParseFloat s with _ | q
    · rw [hp] at key
      simp only [Option.isSome_none, Bool.false_eq_true, false_iff] at key
      simp [validate_prompt_response, h, hp, key]
    · rw [hp] at key
      simp only [Option.isSome_some, true_iff] at key
      simp [validate_prompt_response, h, hp, key]
  · intro hl
    have hsome := key.mpr hl
    rcases hp : specParseFloat s with _ | q
    · rw [hp] at hsome; simp at hsome
    · exact ⟨q, by simp [validate_prompt_response, h, hp]⟩
  · intro hl
    have hnone : specParseFloat s = none := by
      rcases hp : specParseFloat s with _ | q
      · rfl
      · exact absurd (key.mp (by rw [hp]; rfl)) hl
    simp [validate_prompt_response, h, hnone]

/-- Witness for C5 at the concrete input "3.14". -/
theorem validate_float_correct_witness :
    IsFloatLiteral "3.14" :=
  (validate_float_correct "3.14" (by decide)).1.mp (by rfl)
